import Mathlib

/-!
Verification of `publish.py`, the release-packaging script of the Skye
repository.  The script is a linear sequence of filesystem and archive
operations; we embed the filesystem as a finite association list from
paths to nodes and each Python library call (`os.mkdir`, `shutil.copy`,
`shutil.copytree`, `shutil.make_archive`, `shutil.rmtree`, `os.path.exists`)
as a function on that state, faulting with the Python exception it would
raise.  The script itself becomes a deterministic function from the host
description, the behaviour of the shell command runner, and the initial
filesystem to an `Outcome`.
-/

set_option autoImplicit false

namespace Publish

/-- A filesystem path, as a list of components relative to the working
directory. -/
abbrev Path := List String

/-- A filesystem node: a regular file with contents, a directory, or a zip
archive recording the (relative path, contents) pairs stored in it
(`none` marks a directory entry of the archive). -/
inductive Node where
  | file (content : String)
  | dir
  | zipFile (entries : List (Path × Option String))
  deriving DecidableEq, Repr

/-- The filesystem: a finite list of (path, node) bindings.  Well-formed
states bind each path at most once and list every ancestor directory
explicitly. -/
abbrev FS := List (Path × Node)

/-- The Python exceptions the script can die with. -/
inductive PyError where
  | fileExists (p : Path)
  | fileNotFound (p : Path)
  | notADirectory (p : Path)
  | isADirectory (p : Path)
  deriving DecidableEq, Repr

/-- The test `underDir d p` is true when `p` is `d` itself or lies below `d`
(component-wise prefix test). -/
def underDir : Path → Path → Bool
  | [], _ => true
  | _ :: _, [] => false
  | a :: as, b :: bs => decide (a = b) && underDir as bs

/-- Look a path up in the filesystem (first binding wins). -/
def findNode (fs : FS) (p : Path) : Option Node :=
  (fs.find? (fun e => decide (e.1 = p))).map (·.2)

/-- Python `os.path.exists`. -/
def pathExists (fs : FS) (p : Path) : Bool :=
  (findNode fs p).isSome

/-- Drop every binding at or below `p` (the raw effect of a successful
`shutil.rmtree p`). -/
def removeTreeRaw (p : Path) (fs : FS) : FS :=
  fs.filter (fun e => !underDir p e.1)

/-- Bind path `t` to node `n`, overwriting any existing binding. -/
def setNode (t : Path) (n : Node) (fs : FS) : FS :=
  (t, n) :: fs.filter (fun e => !decide (e.1 = t))

/-- Python `shutil.rmtree p`: fails unless `p` is an existing directory, then
removes the whole subtree. -/
def rmtree (p : Path) (fs : FS) : Except PyError FS :=
  match findNode fs p with
  | some .dir => .ok (removeTreeRaw p fs)
  | some _ => .error (.notADirectory p)
  | none => .error (.fileNotFound p)

/-- Python `os.mkdir p`: fails with `FileExistsError` if `p` already exists. -/
def mkdir (p : Path) (fs : FS) : Except PyError FS :=
  if pathExists fs p then .error (.fileExists p)
  else .ok ((p, .dir) :: fs)

/-- Python `shutil.copy src dst`: `src` must be an existing non-directory; when
`dst` is a directory the file lands inside it under `src`'s basename,
otherwise at `dst` itself (overwriting). -/
def copy (src dst : Path) (fs : FS) : Except PyError FS :=
  match findNode fs src with
  | some .dir => .error (.isADirectory src)
  | some n =>
    let target := match findNode fs dst with
      | some .dir => dst ++ [src.getLastD ""]
      | _ => dst
    .ok (setNode target n fs)
  | none => .error (.fileNotFound src)

/-- The bindings a `shutil.copytree src dst` adds: every binding at or
below `src`, re-rooted at `dst`. -/
def movedEntries (src dst : Path) (fs : FS) : FS :=
  fs.filterMap (fun e =>
    if underDir src e.1 then some (dst ++ e.1.drop src.length, e.2) else none)

/-- Python `shutil.copytree src dst`: `src` must be an existing directory and
`dst` must not exist (no merge semantics). -/
def copytree (src dst : Path) (fs : FS) : Except PyError FS :=
  match findNode fs src with
  | some .dir =>
    if pathExists fs dst then .error (.fileExists dst)
    else .ok (movedEntries src dst fs ++ fs)
  | some _ => .error (.notADirectory src)
  | none => .error (.fileNotFound src)

/-- The entries `shutil.make_archive` stores when archiving `root`: every
binding strictly below `root`, with its path relativised to `root`;
directories are recorded with `none`, files with their contents. -/
def archiveEntries (root : Path) (fs : FS) : List (Path × Option String) :=
  fs.filterMap (fun e =>
    if underDir root e.1 && !decide (e.1 = root) then
      some (e.1.drop root.length,
        match e.2 with
        | .file c => some c
        | .dir => none
        | .zipFile _ => some "")
    else none)

/-- The path of the zip file `shutil.make_archive base "zip" ...` writes:
`base` with `".zip"` appended to its last component. -/
def zipPathOf (base : Path) : Path :=
  base.dropLast ++ [base.getLastD "" ++ ".zip"]

/-- Python `shutil.make_archive base "zip" root`: `root` must be an existing
directory and the directory holding the archive must exist; writes the
zip of `root`'s contents at `zipPathOf base`. -/
def make_archive (base root : Path) (fs : FS) : Except PyError FS :=
  match findNode fs root with
  | some .dir =>
    match findNode fs base.dropLast with
    | some .dir => .ok (setNode (zipPathOf base) (.zipFile (archiveEntries root fs)) fs)
    | _ => .error (.fileNotFound base.dropLast)
  | _ => .error (.fileNotFound root)

/-- The host environment: the raw `platform.system()` and
`platform.machine()` strings. -/
structure Host where
  system : String
  machine : String
  deriving DecidableEq, Repr

/-- The module-level platform string `PLATFORM`: `platform.system()`
with `"Darwin"` rewritten to `"macOS"`. -/
def PLATFORM (h : Host) : String :=
  if h.system = "Darwin" then "macOS" else h.system

/-- The module-level `ARCH = platform.machine()`, used verbatim. -/
def ARCH (h : Host) : String :=
  h.machine

/-- The binary filename selected on line 17 of `publish.py`:
`"skye.exe" if PLATFORM == "Windows" else "skye"`. -/
def binaryName (h : Host) : String :=
  if PLATFORM h = "Windows" then "skye.exe" else "skye"

/-- The `base_name` argument of `shutil.make_archive`:
`os.path.join("publish", f"Skye-{ARCH}-{PLATFORM}")`. -/
def archiveBase (h : Host) : Path :=
  ["publish", "Skye-" ++ ARCH h ++ "-" ++ PLATFORM h]

/-- The full path of the produced archive. -/
def archiveZipPath (h : Host) : Path :=
  zipPathOf (archiveBase h)

/-- How a run of the script ends: normal termination, `sys.exit(1)`, or
an unhandled Python exception; each carries the filesystem at that
moment. -/
inductive Outcome where
  | ok (fs : FS)
  | exit1 (fs : FS)
  | fatal (e : PyError) (fs : FS)
  deriving DecidableEq, Repr

/-- The function `pack(cmd)` from `publish.py`: run the build command, bail out with
`sys.exit(1)` on a non-zero code, then stage, archive and clean up;
`runCmd` models `os.system`. -/
def pack (h : Host) (runCmd : String → Int) (cmd : String) (fs : FS) : Outcome :=
  let code := runCmd cmd
  if code ≠ 0 then .exit1 fs else
  match mkdir ["tmp"] fs with
  | .error e => .fatal e fs
  | .ok fs1 =>
  match copy ["target", "release", binaryName h] ["tmp"] fs1 with
  | .error e => .fatal e fs1
  | .ok fs2 =>
  match copy ["LICENSE"] ["tmp"] fs2 with
  | .error e => .fatal e fs2
  | .ok fs3 =>
  match copytree ["lib"] ["tmp", "lib"] fs3 with
  | .error e => .fatal e fs3
  | .ok fs4 =>
  match make_archive (archiveBase h) ["tmp"] fs4 with
  | .error e => .fatal e fs4
  | .ok fs5 =>
  match rmtree ["tmp"] fs5 with
  | .error e => .fatal e fs5
  | .ok fs6 => .ok fs6

/-- The module-level code of `publish.py`: reset the `publish` directory,
then call `pack("cargo build --release")`. -/
def script (h : Host) (runCmd : String → Int) (fs : FS) : Outcome :=
  match (if pathExists fs ["publish"] then rmtree ["publish"] fs else Except.ok fs) with
  | .error e => .fatal e fs
  | .ok fs1 =>
  match mkdir ["publish"] fs1 with
  | .error e => .fatal e fs1
  | .ok fs2 => pack h runCmd "cargo build --release" fs2

/-! ### Derived state descriptions and fixtures -/

/-- The filesystem right after the module-level `publish` reset, when
that reset succeeds. -/
def resetFS (fs : FS) : FS :=
  (["publish"], Node.dir) ::
    (if pathExists fs ["publish"] then removeTreeRaw ["publish"] fs else fs)

/-- Sanity condition on the initial state: if `publish` exists it is a
directory, and if it does not exist then nothing is recorded below it. -/
def publishOk (fs : FS) : Bool :=
  match findNode fs ["publish"] with
  | some .dir => true
  | some _ => false
  | none => fs.all (fun e => !underDir ["publish"] e.1)

/-- Nothing is bound strictly below `publish`. -/
def publishEmpty (fs : FS) : Bool :=
  fs.all (fun e => !underDir ["publish"] e.1 || decide (e.1 = ["publish"]))

/-- Everything bound at or below `publish` is `publish` itself or the
single path `keep`. -/
def publishCleanExcept (fs : FS) (keep : Path) : Bool :=
  fs.all (fun e =>
    !underDir ["publish"] e.1 || decide (e.1 = ["publish"]) || decide (e.1 = keep))

/-- No binding at or below `tmp` remains. -/
def noTmpLeft (fs : FS) : Bool :=
  fs.all (fun e => !underDir ["tmp"] e.1)

/-- A zip archive is bound at `p`. -/
def isZipAt (fs : FS) (p : Path) : Bool :=
  match findNode fs p with
  | some (.zipFile _) => true
  | _ => false

/-- The working directory of property P3 of the spec: a `LICENSE` file,
a `lib` tree containing `a.txt` and `sub/b.txt`, and a built binary
`target/release/skye`. -/
def fsP3 : FS :=
  [(["LICENSE"], .file "MIT"),
   (["lib"], .dir),
   (["lib", "a.txt"], .file "a"),
   (["lib", "sub"], .dir),
   (["lib", "sub", "b.txt"], .file "b"),
   (["target"], .dir),
   (["target", "release"], .dir),
   (["target", "release", "skye"], .file "BIN")]

/-- The archive entries a successful run on `fsP3` produces. -/
def entsP3 : List (Path × Option String) :=
  [(["lib"], none), (["lib", "a.txt"], some "a"), (["lib", "sub"], none),
   (["lib", "sub", "b.txt"], some "b"), (["LICENSE"], some "MIT"),
   (["skye"], some "BIN")]

/-- A working directory like `fsP3` but with no `LICENSE` file. -/
def fsNoLicense : FS :=
  [(["lib"], .dir),
   (["target"], .dir),
   (["target", "release"], .dir),
   (["target", "release", "skye"], .file "BIN")]

/-- A Linux/x86_64 host. -/
def hLinux : Host := ⟨"Linux", "x86_64"⟩

/-- A macOS/arm64 host (raw OS name `Darwin`). -/
def hDarwin : Host := ⟨"Darwin", "arm64"⟩

/-- A command runner whose build always succeeds. -/
def cmdOk : String → Int := fun _ => 0

/-- A command runner whose build exits with status 2. -/
def cmdFail : String → Int := fun _ => 2

/-- The staging state after the two `shutil.copy` calls of `pack`:
`tmp` created, the binary and `LICENSE` copied into it (`bin` and `lic`
are the nodes found at the copy sources). -/
def stage3 (h : Host) (bin lic : Node) (fs : FS) : FS :=
  setNode ["tmp", "LICENSE"] lic
    (setNode ["tmp", binaryName h] bin ((["tmp"], Node.dir) :: fs))

/-- The staging state after `shutil.copytree("lib", "tmp/lib")`. -/
def stage4 (h : Host) (bin lic : Node) (fs : FS) : FS :=
  movedEntries ["lib"] ["tmp", "lib"] (stage3 h bin lic fs) ++ stage3 h bin lic fs

/-- Modelled from the spec, C10's comparison point: a binary-name
selection that tests the raw host OS name against `"Windows"` instead of
the normalized platform string. -/
def binaryNameFromRawOS (h : Host) : String :=
  if h.system = "Windows" then "skye.exe" else "skye"

/-! ### Path lemmas -/

theorem underDir_refl (p : Path) : underDir p p = true := by
  induction p with
  | nil => rfl
  | cons a as ih => simp [underDir, ih]

theorem underDir_append (p r : Path) : underDir p (p ++ r) = true := by
  induction p with
  | nil => rfl
  | cons a as ih => simp [underDir, ih]

theorem underDir_cons_ex {a : String} {as q : Path} (h : underDir (a :: as) q = true) :
    ∃ qs, q = a :: qs := by
  cases q with
  | nil => simp [underDir] at h
  | cons b bs =>
    simp only [underDir, Bool.and_eq_true, decide_eq_true_eq] at h
    exact ⟨bs, by rw [h.1]⟩

theorem underDir_head_ne {a b : String} {as bs q : Path} (hab : a ≠ b)
    (h : underDir (a :: as) q = true) : underDir (b :: bs) q = false := by
  obtain ⟨qs, rfl⟩ := underDir_cons_ex h
  have hba : ¬(b = a) := fun hba => hab hba.symm
  simp [underDir, hba]

/-! ### `findNode` and membership lemmas -/

theorem findNode_cons (p : Path) (n : Node) (fs : FS) (q : Path) :
    findNode ((p, n) :: fs) q = if p = q then some n else findNode fs q := by
  by_cases hpq : p = q <;> simp [findNode, List.find?, hpq]

theorem findNode_filter_of_true {f : Path × Node → Bool} {q : Path}
    (hq : ∀ n, f (q, n) = true) (fs : FS) :
    findNode (fs.filter f) q = findNode fs q := by
  induction fs with
  | nil => rfl
  | cons e fs ih =>
    obtain ⟨p, n⟩ := e
    by_cases hpq : p = q
    · subst hpq
      rw [List.filter_cons_of_pos (hq n), findNode_cons, findNode_cons, if_pos rfl,
        if_pos rfl]
    · by_cases hf : f (p, n)
      · rw [List.filter_cons_of_pos hf, findNode_cons, findNode_cons, if_neg hpq,
          if_neg hpq, ih]
      · rw [List.filter_cons_of_neg (by simpa using hf), findNode_cons, if_neg hpq, ih]

theorem findNode_filter_of_false {f : Path × Node → Bool} {q : Path}
    (hq : ∀ n, f (q, n) = false) (fs : FS) :
    findNode (fs.filter f) q = none := by
  induction fs with
  | nil => rfl
  | cons e fs ih =>
    obtain ⟨p, n⟩ := e
    by_cases hpq : p = q
    · subst hpq
      rw [List.filter_cons_of_neg (by simp [hq n]), ih]
    · by_cases hf : f (p, n)
      · rw [List.filter_cons_of_pos hf, findNode_cons, if_neg hpq, ih]
      · rw [List.filter_cons_of_neg (by simpa using hf), ih]

theorem findNode_eq_none_iff {fs : FS} {q : Path} :
    findNode fs q = none ↔ ∀ e ∈ fs, e.1 ≠ q := by
  rw [findNode, Option.map_eq_none', List.find?_eq_none]
  simp only [decide_eq_true_eq, ne_eq]

theorem findNode_append_of_none {l₁ : FS} {q : Path} (h : findNode l₁ q = none)
    (l₂ : FS) : findNode (l₁ ++ l₂) q = findNode l₂ q := by
  induction l₁ with
  | nil => rfl
  | cons e l ih =>
    obtain ⟨p, n⟩ := e
    rw [findNode_cons] at h
    by_cases hpq : p = q
    · rw [if_pos hpq] at h; cases h
    · rw [if_neg hpq] at h
      rw [List.cons_append, findNode_cons, if_neg hpq, ih h]

theorem findNode_setNode_self (t : Path) (n : Node) (fs : FS) :
    findNode (setNode t n fs) t = some n := by
  rw [setNode, findNode_cons, if_pos rfl]

theorem findNode_setNode_ne {q t : Path} (h : t ≠ q) (n : Node) (fs : FS) :
    findNode (setNode t n fs) q = findNode fs q := by
  rw [setNode, findNode_cons, if_neg h]
  have hqt : ¬(q = t) := fun hqt => h hqt.symm
  exact findNode_filter_of_true (fun m => by simp [hqt]) fs

theorem mem_setNode {e : Path × Node} {t : Path} {n : Node} {fs : FS} :
    e ∈ setNode t n fs ↔ e = (t, n) ∨ (e ∈ fs ∧ e.1 ≠ t) := by
  simp [setNode, List.mem_filter]

theorem mem_removeTreeRaw {e : Path × Node} {p : Path} {fs : FS} :
    e ∈ removeTreeRaw p fs ↔ e ∈ fs ∧ underDir p e.1 = false := by
  simp [removeTreeRaw, List.mem_filter]

theorem findNode_removeTreeRaw_of_not_under {p q : Path}
    (h : underDir p q = false) (fs : FS) :
    findNode (removeTreeRaw p fs) q = findNode fs q :=
  findNode_filter_of_true (fun _ => by simp [h]) fs

theorem findNode_removeTreeRaw_of_under {p q : Path}
    (h : underDir p q = true) (fs : FS) :
    findNode (removeTreeRaw p fs) q = none :=
  findNode_filter_of_false (fun _ => by simp [h]) fs

theorem mem_movedEntries_under {e : Path × Node} {src dst : Path} {fs : FS}
    (h : e ∈ movedEntries src dst fs) : underDir dst e.1 = true := by
  obtain ⟨x, _, hfx⟩ := List.mem_filterMap.mp h
  by_cases hu : underDir src x.1 = true
  · rw [if_pos hu] at hfx
    obtain rfl := Option.some.inj hfx
    exact underDir_append dst _
  · rw [if_neg hu] at hfx
    exact absurd hfx (by simp)

theorem findNode_movedEntries_of_not_under {dst q : Path}
    (h : underDir dst q = false) (src : Path) (fs : FS) :
    findNode (movedEntries src dst fs) q = none := by
  rw [findNode_eq_none_iff]
  intro e he heq
  have hu := mem_movedEntries_under he
  rw [heq, h] at hu
  cases hu

/-! ### Inversion lemmas for the filesystem operations -/

theorem mkdir_ok {p : Path} {fs fs' : FS} (h : mkdir p fs = .ok fs') :
    pathExists fs p = false ∧ fs' = (p, .dir) :: fs := by
  unfold mkdir at h
  split at h
  · cases h
  · rename_i hex
    exact ⟨by simpa using hex, (Except.ok.inj h).symm⟩

theorem rmtree_ok {p : Path} {fs fs' : FS} (h : rmtree p fs = .ok fs') :
    findNode fs p = some .dir ∧ fs' = removeTreeRaw p fs := by
  unfold rmtree at h
  split at h
  · rename_i heq
    exact ⟨heq, (Except.ok.inj h).symm⟩
  · cases h
  · cases h

theorem copy_ok_dir {src dst : Path} {fs fs' : FS}
    (hdst : findNode fs dst = some .dir) (h : copy src dst fs = .ok fs') :
    ∃ n, findNode fs src = some n ∧ n ≠ Node.dir ∧
      fs' = setNode (dst ++ [src.getLastD ""]) n fs := by
  unfold copy at h
  split at h
  · cases h
  · rename_i n hne heq
    rw [hdst] at h
    exact ⟨n, heq, fun hd => hne hd, (Except.ok.inj h).symm⟩
  · cases h

theorem copytree_ok {src dst : Path} {fs fs' : FS}
    (h : copytree src dst fs = .ok fs') :
    findNode fs src = some .dir ∧ pathExists fs dst = false ∧
      fs' = movedEntries src dst fs ++ fs := by
  unfold copytree at h
  split at h
  · rename_i heq
    split at h
    · cases h
    · rename_i hex
      exact ⟨heq, by simpa using hex, (Except.ok.inj h).symm⟩
  · cases h
  · cases h

theorem make_archive_ok {base root : Path} {fs fs' : FS}
    (h : make_archive base root fs = .ok fs') :
    findNode fs root = some .dir ∧ findNode fs base.dropLast = some .dir ∧
      fs' = setNode (zipPathOf base) (.zipFile (archiveEntries root fs)) fs := by
  unfold make_archive at h
  split at h
  · rename_i hroot
    split at h
    · rename_i hpar
      exact ⟨hroot, hpar, (Except.ok.inj h).symm⟩
    · cases h
  · cases h

/-! ### The `publish` reset -/

theorem resetFS_findNode_publish (fs : FS) :
    findNode (resetFS fs) ["publish"] = some .dir := by
  rw [resetFS, findNode_cons, if_pos rfl]

theorem publishOk_of_dir {fs : FS} (h : findNode fs ["publish"] = some Node.dir) :
    publishOk fs = true := by
  simp [publishOk, h]

theorem publishOk_dir_of_exists {fs : FS} (hp : publishOk fs = true)
    (he : pathExists fs ["publish"] = true) :
    findNode fs ["publish"] = some Node.dir := by
  unfold publishOk at hp
  split at hp
  · assumption
  · cases hp
  · rename_i heq
    rw [pathExists, heq] at he
    cases he

theorem publishOk_none_all {fs : FS} (hp : publishOk fs = true)
    (he : findNode fs ["publish"] = none) :
    ∀ e ∈ fs, underDir ["publish"] e.1 = false := by
  unfold publishOk at hp
  split at hp
  · rename_i heq
    rw [heq] at he; cases he
  · cases hp
  · intro e hm
    have := List.all_eq_true.mp hp e hm
    simpa using this

theorem script_run {fs : FS} (h : Host) (r : String → Int) (hp : publishOk fs = true) :
    script h r fs = pack h r "cargo build --release" (resetFS fs) := by
  unfold script resetFS
  cases he : pathExists fs ["publish"] with
  | false =>
    have hm : mkdir ["publish"] fs = .ok ((["publish"], Node.dir) :: fs) := by
      unfold mkdir
      rw [if_neg (by simp [he])]
    simp [he, hm]
  | true =>
    have hd := publishOk_dir_of_exists hp he
    have h1 : rmtree ["publish"] fs = .ok (removeTreeRaw ["publish"] fs) := by
      unfold rmtree
      rw [hd]
    have h2 : findNode (removeTreeRaw ["publish"] fs) ["publish"] = none :=
      findNode_removeTreeRaw_of_under (underDir_refl _) fs
    have h3 : mkdir ["publish"] (removeTreeRaw ["publish"] fs) =
        .ok ((["publish"], Node.dir) :: removeTreeRaw ["publish"] fs) := by
      unfold mkdir
      rw [if_neg (by simp [pathExists, h2])]
    simp [he, h1, h3]

/-! ### Prop interfaces for the Bool state predicates -/

theorem publishEmpty_iff {fs : FS} :
    publishEmpty fs = true ↔
      ∀ q n, (q, n) ∈ fs → underDir ["publish"] q = true → q = ["publish"] := by
  rw [publishEmpty, List.all_eq_true]
  constructor
  · intro hall q n hm hu
    have := hall (q, n) hm
    simpa [hu] using this
  · intro hq e he
    by_cases hu : underDir ["publish"] e.1 = true
    · have := hq e.1 e.2 (by simpa using he) hu
      simp [this]
    · have hu' : underDir ["publish"] e.1 = false := by simpa using hu
      simp [hu']

theorem publishCleanExcept_iff {fs : FS} {keep : Path} :
    publishCleanExcept fs keep = true ↔
      ∀ q n, (q, n) ∈ fs → underDir ["publish"] q = true →
        q = ["publish"] ∨ q = keep := by
  rw [publishCleanExcept, List.all_eq_true]
  constructor
  · intro hall q n hm hu
    have := hall (q, n) hm
    simpa [hu, Bool.or_eq_true, decide_eq_true_eq] using this
  · intro hq e he
    by_cases hu : underDir ["publish"] e.1 = true
    · rcases hq e.1 e.2 (by simpa using he) hu with h1 | h1 <;> simp [h1]
    · have hu' : underDir ["publish"] e.1 = false := by simpa using hu
      simp [hu']

theorem noTmpLeft_iff {fs : FS} :
    noTmpLeft fs = true ↔ ∀ q n, (q, n) ∈ fs → underDir ["tmp"] q = false := by
  rw [noTmpLeft, List.all_eq_true]
  constructor
  · intro hall q n hm
    have := hall (q, n) hm
    simpa using this
  · intro hq e he
    simp [hq e.1 e.2 (by simpa using he)]

theorem resetFS_publishEmpty {fs : FS} (hp : publishOk fs = true) :
    publishEmpty (resetFS fs) = true := by
  rw [publishEmpty_iff]
  intro q n hm hu
  rw [resetFS] at hm
  rcases List.mem_cons.mp hm with heq | hm
  · exact congrArg Prod.fst heq
  · split at hm
    · exact absurd hu (by simp [(mem_removeTreeRaw.mp hm).2])
    · rename_i he
      have hnone : findNode fs ["publish"] = none := by
        have : pathExists fs ["publish"] = false := by simpa using he
        rw [pathExists] at this
        exact Option.not_isSome_iff_eq_none.mp (by simp [this])
      exact absurd hu (by simp [publishOk_none_all hp hnone (q, n) hm])

theorem resetFS_mem_frame {fs : FS} {q : Path} {n : Node}
    (hq : underDir ["publish"] q = false) :
    (q, n) ∈ resetFS fs ↔ (q, n) ∈ fs := by
  rw [resetFS]
  have hqp : (q, n) ≠ (["publish"], Node.dir) := by
    intro heq
    injection heq with h1 h2
    rw [h1, underDir_refl] at hq
    cases hq
  rw [List.mem_cons]
  split
  · simp [mem_removeTreeRaw, hq, hqp]
  · simp [hqp]

theorem resetFS_findNode_frame {fs : FS} {q : Path}
    (hq : underDir ["publish"] q = false) :
    findNode (resetFS fs) q = findNode fs q := by
  have hqp : ¬(["publish"] = q) := by
    intro heq
    rw [← heq, underDir_refl] at hq
    cases hq
  rw [resetFS, findNode_cons, if_neg hqp]
  split
  · exact findNode_removeTreeRaw_of_not_under hq fs
  · rfl

/-! ### Inversion of a successful `pack` -/

theorem pack_ok_inv {h : Host} {r : String → Int} {cmd : String} {fs fs' : FS}
    (hok : pack h r cmd fs = .ok fs') :
    r cmd = 0 ∧ pathExists fs ["tmp"] = false ∧
    ∃ bin lic, bin ≠ Node.dir ∧ lic ≠ Node.dir ∧
      findNode fs ["target", "release", binaryName h] = some bin ∧
      findNode fs ["LICENSE"] = some lic ∧
      findNode fs ["lib"] = some Node.dir ∧
      fs' = removeTreeRaw ["tmp"]
        (setNode (archiveZipPath h)
          (.zipFile (archiveEntries ["tmp"] (stage4 h bin lic fs)))
          (stage4 h bin lic fs)) := by
  simp only [pack] at hok
  by_cases hc : r cmd ≠ 0
  · rw [if_pos hc] at hok
    exact Outcome.noConfusion hok
  rw [if_neg hc] at hok
  have hc0 : r cmd = 0 := not_not.mp hc
  split at hok
  · exact Outcome.noConfusion hok
  rename_i fs1 heq1
  obtain ⟨htmp, rfl⟩ := mkdir_ok heq1
  split at hok
  · exact Outcome.noConfusion hok
  rename_i fs2 heq2
  have hd1 : findNode ((["tmp"], Node.dir) :: fs) ["tmp"] = some .dir := by
    rw [findNode_cons, if_pos rfl]
  obtain ⟨bin, hbin, hbinnd, rfl⟩ := copy_ok_dir hd1 heq2
  split at hok
  · exact Outcome.noConfusion hok
  rename_i fs3 heq3
  have hd2 : findNode
      (setNode (["tmp"] ++ [(["target", "release", binaryName h] : Path).getLastD ""])
        bin ((["tmp"], Node.dir) :: fs)) ["tmp"] = some .dir := by
    rw [findNode_setNode_ne (by simp), findNode_cons, if_pos rfl]
  obtain ⟨lic, hlic, hlicnd, rfl⟩ := copy_ok_dir hd2 heq3
  split at hok
  · exact Outcome.noConfusion hok
  rename_i fs4 heq4
  obtain ⟨hsrc4, hnex4, rfl⟩ := copytree_ok heq4
  split at hok
  · exact Outcome.noConfusion hok
  rename_i fs5 heq5
  obtain ⟨hroot5, hpar5, rfl⟩ := make_archive_ok heq5
  split at hok
  · exact Outcome.noConfusion hok
  rename_i fs6 heq6
  obtain ⟨hdir6, rfl⟩ := rmtree_ok heq6
  cases hok
  have hbin' : findNode fs ["target", "release", binaryName h] = some bin := by
    rwa [findNode_cons, if_neg (by simp)] at hbin
  have hlic' : findNode fs ["LICENSE"] = some lic := by
    rwa [findNode_setNode_ne (by simp), findNode_cons, if_neg (by simp)] at hlic
  have hlib' : findNode fs ["lib"] = some Node.dir := by
    rwa [findNode_setNode_ne (by simp), findNode_setNode_ne (by simp),
      findNode_cons, if_neg (by simp)] at hsrc4
  exact ⟨hc0, htmp, bin, lic, hbinnd, hlicnd, hbin', hlic', hlib', rfl⟩

/-! ### Staging leaves the `publish` subtree alone -/

theorem underDir_publish_tmp_cons (l : Path) :
    underDir ["publish"] ("tmp" :: l) = false := by
  simp [underDir]

theorem underDir_tmp_publish_cons (l : Path) :
    underDir ["tmp"] ("publish" :: l) = false := by
  simp [underDir]

theorem archiveZipPath_eq (h : Host) :
    archiveZipPath h = ["publish", "Skye-" ++ ARCH h ++ "-" ++ PLATFORM h ++ ".zip"] :=
  rfl

theorem stage3_publish {h : Host} {bin lic : Node} {fs : FS}
    (hpe : publishEmpty fs = true) (hpd : findNode fs ["publish"] = some Node.dir) :
    publishEmpty (stage3 h bin lic fs) = true ∧
      findNode (stage3 h bin lic fs) ["publish"] = some Node.dir := by
  constructor
  · rw [publishEmpty_iff]
    intro q n hm hu
    rw [stage3] at hm
    rcases mem_setNode.mp hm with heq | ⟨hm, hne⟩
    · injection heq with h1 h2
      rw [h1, underDir_publish_tmp_cons] at hu
      cases hu
    rcases mem_setNode.mp hm with heq | ⟨hm, hne2⟩
    · injection heq with h1 h2
      rw [h1, underDir_publish_tmp_cons] at hu
      cases hu
    rcases List.mem_cons.mp hm with heq | hm
    · injection heq with h1 h2
      rw [h1, underDir_publish_tmp_cons] at hu
      cases hu
    · exact publishEmpty_iff.mp hpe q n hm hu
  · rw [stage3, findNode_setNode_ne (by simp), findNode_setNode_ne (by simp),
      findNode_cons, if_neg (by simp)]
    exact hpd

theorem stage4_publish {h : Host} {bin lic : Node} {fs : FS}
    (hpe : publishEmpty fs = true) (hpd : findNode fs ["publish"] = some Node.dir) :
    publishEmpty (stage4 h bin lic fs) = true ∧
      findNode (stage4 h bin lic fs) ["publish"] = some Node.dir := by
  obtain ⟨h3e, h3d⟩ := @stage3_publish h bin lic fs hpe hpd
  constructor
  · rw [publishEmpty_iff]
    intro q n hm hu
    rw [stage4] at hm
    rcases List.mem_append.mp hm with hm | hm
    · obtain ⟨qs, rfl⟩ := underDir_cons_ex (mem_movedEntries_under hm)
      rw [underDir_publish_tmp_cons] at hu
      cases hu
    · exact publishEmpty_iff.mp h3e q n hm hu
  · rw [stage4,
      findNode_append_of_none (findNode_movedEntries_of_not_under (by simp [underDir]) _ _)]
    exact h3d

/-! ### Shape of a successful run -/

theorem script_ok_pack {h : Host} {r : String → Int} {fs fs' : FS}
    (hok : script h r fs = .ok fs') :
    ∃ fs2, pack h r "cargo build --release" fs2 = .ok fs' := by
  unfold script at hok
  split at hok
  · exact Outcome.noConfusion hok
  rename_i fs1 heq1
  split at hok
  · exact Outcome.noConfusion hok
  rename_i fs2 heq2
  exact ⟨fs2, hok⟩

theorem run_ok_noTmp {h : Host} {r : String → Int} {fs fs' : FS}
    (hok : script h r fs = .ok fs') : noTmpLeft fs' = true := by
  obtain ⟨fs2, hok2⟩ := script_ok_pack hok
  obtain ⟨-, -, bin, lic, -, -, -, -, -, rfl⟩ := pack_ok_inv hok2
  rw [noTmpLeft_iff]
  intro q n hm
  exact (mem_removeTreeRaw.mp hm).2

theorem run_ok_isZip {h : Host} {r : String → Int} {fs fs' : FS}
    (hok : script h r fs = .ok fs') : isZipAt fs' (archiveZipPath h) = true := by
  obtain ⟨fs2, hok2⟩ := script_ok_pack hok
  obtain ⟨-, -, bin, lic, -, -, -, -, -, rfl⟩ := pack_ok_inv hok2
  have hz : findNode
      (removeTreeRaw ["tmp"]
        (setNode (archiveZipPath h)
          (.zipFile (archiveEntries ["tmp"] (stage4 h bin lic fs2)))
          (stage4 h bin lic fs2))) (archiveZipPath h) =
      some (.zipFile (archiveEntries ["tmp"] (stage4 h bin lic fs2))) := by
    rw [findNode_removeTreeRaw_of_not_under
        (by rw [archiveZipPath_eq]; exact underDir_tmp_publish_cons _),
      findNode_setNode_self]
  simp [isZipAt, hz]

theorem run_ok_publishShape {h : Host} {r : String → Int} {fs fs' : FS}
    (hp : publishOk fs = true) (hok : script h r fs = .ok fs') :
    findNode fs' ["publish"] = some Node.dir ∧
      isZipAt fs' (archiveZipPath h) = true ∧
      publishCleanExcept fs' (archiveZipPath h) = true := by
  have hzip := run_ok_isZip hok
  rw [script_run h r hp] at hok
  obtain ⟨hc0, htmp, bin, lic, hbnd, hlnd, -, -, -, rfl⟩ := pack_ok_inv hok
  obtain ⟨h4e, h4d⟩ := @stage4_publish h bin lic (resetFS fs)
    (resetFS_publishEmpty hp) (resetFS_findNode_publish fs)
  refine ⟨?_, hzip, ?_⟩
  · rw [findNode_removeTreeRaw_of_not_under (by simp [underDir]),
      findNode_setNode_ne (by rw [archiveZipPath_eq]; simp)]
    exact h4d
  · rw [publishCleanExcept_iff]
    intro q n hm hu
    have hm' := (mem_removeTreeRaw.mp hm).1
    rcases mem_setNode.mp hm' with heq | ⟨hm4, hneq⟩
    · rw [Prod.mk.injEq] at heq
      exact Or.inr heq.1
    · left
      exact publishEmpty_iff.mp h4e q n hm4 hu

/-! ### Shape of a failing run -/

theorem pack_exit1_inv {h : Host} {r : String → Int} {cmd : String} {fs fsx : FS}
    (hf : pack h r cmd fs = .exit1 fsx) : r cmd ≠ 0 ∧ fsx = fs := by
  simp only [pack] at hf
  by_cases hc : r cmd ≠ 0
  · rw [if_pos hc] at hf
    exact ⟨hc, (Outcome.exit1.inj hf).symm⟩
  · rw [if_neg hc] at hf
    exfalso
    split at hf
    · exact Outcome.noConfusion hf
    split at hf
    · exact Outcome.noConfusion hf
    split at hf
    · exact Outcome.noConfusion hf
    split at hf
    · exact Outcome.noConfusion hf
    split at hf
    · exact Outcome.noConfusion hf
    split at hf
    · exact Outcome.noConfusion hf
    exact Outcome.noConfusion hf

theorem stage1_publish {fs : FS}
    (hpe : publishEmpty fs = true) (hpd : findNode fs ["publish"] = some Node.dir) :
    publishEmpty ((["tmp"], Node.dir) :: fs) = true ∧
      findNode ((["tmp"], Node.dir) :: fs) ["publish"] = some Node.dir := by
  constructor
  · rw [publishEmpty_iff]
    intro q n hm hu
    rcases List.mem_cons.mp hm with heq | hm
    · rw [Prod.mk.injEq] at heq
      rw [heq.1, underDir_publish_tmp_cons] at hu
      cases hu
    · exact publishEmpty_iff.mp hpe q n hm hu
  · rw [findNode_cons, if_neg (by simp)]
    exact hpd

theorem stage2_publish {h : Host} {bin : Node} {fs : FS}
    (hpe : publishEmpty fs = true) (hpd : findNode fs ["publish"] = some Node.dir) :
    publishEmpty (setNode ["tmp", binaryName h] bin ((["tmp"], Node.dir) :: fs)) = true ∧
      findNode (setNode ["tmp", binaryName h] bin ((["tmp"], Node.dir) :: fs))
        ["publish"] = some Node.dir := by
  obtain ⟨h1e, h1d⟩ := stage1_publish hpe hpd
  constructor
  · rw [publishEmpty_iff]
    intro q n hm hu
    rcases mem_setNode.mp hm with heq | ⟨hm, hne⟩
    · rw [Prod.mk.injEq] at heq
      rw [heq.1, underDir_publish_tmp_cons] at hu
      cases hu
    · exact publishEmpty_iff.mp h1e q n hm hu
  · rw [findNode_setNode_ne (by simp)]
    exact h1d

theorem pack_fatal_state {h : Host} {r : String → Int} {cmd : String} {fs fsx : FS}
    {e : PyError}
    (hpe : publishEmpty fs = true) (hpd : findNode fs ["publish"] = some Node.dir)
    (hf : pack h r cmd fs = .fatal e fsx) :
    findNode fsx ["publish"] = some Node.dir ∧ publishEmpty fsx = true := by
  simp only [pack] at hf
  by_cases hc : r cmd ≠ 0
  · rw [if_pos hc] at hf
    exact Outcome.noConfusion hf
  rw [if_neg hc] at hf
  split at hf
  · cases hf
    exact ⟨hpd, hpe⟩
  rename_i fs1 heq1
  obtain ⟨htmp, rfl⟩ := mkdir_ok heq1
  split at hf
  · cases hf
    exact ⟨(stage1_publish hpe hpd).2, (stage1_publish hpe hpd).1⟩
  rename_i fs2 heq2
  have hd1 : findNode ((["tmp"], Node.dir) :: fs) ["tmp"] = some .dir := by
    rw [findNode_cons, if_pos rfl]
  obtain ⟨bin, hbin, hbnd, rfl⟩ := copy_ok_dir hd1 heq2
  split at hf
  · cases hf
    exact ⟨(@stage2_publish h bin fs hpe hpd).2,
      (@stage2_publish h bin fs hpe hpd).1⟩
  rename_i fs3 heq3
  have hd2 : findNode
      (setNode (["tmp"] ++ [(["target", "release", binaryName h] : Path).getLastD ""])
        bin ((["tmp"], Node.dir) :: fs)) ["tmp"] = some .dir := by
    rw [findNode_setNode_ne (by simp), findNode_cons, if_pos rfl]
  obtain ⟨lic, hlic, hlnd, rfl⟩ := copy_ok_dir hd2 heq3
  split at hf
  · cases hf
    exact ⟨(@stage3_publish h bin lic fs hpe hpd).2,
      (@stage3_publish h bin lic fs hpe hpd).1⟩
  rename_i fs4 heq4
  obtain ⟨hsrc4, hnex4, rfl⟩ := copytree_ok heq4
  split at hf
  · cases hf
    exact ⟨(@stage4_publish h bin lic fs hpe hpd).2,
      (@stage4_publish h bin lic fs hpe hpd).1⟩
  rename_i fs5 heq5
  obtain ⟨hroot5, hpar5, rfl⟩ := make_archive_ok heq5
  split at hf
  · rename_i e1 heq6
    exfalso
    have htdir : findNode
        (setNode (zipPathOf (archiveBase h))
          (.zipFile (archiveEntries ["tmp"] (stage4 h bin lic fs)))
          (stage4 h bin lic fs)) ["tmp"] = some Node.dir := by
      rw [findNode_setNode_ne (by simp [zipPathOf, archiveBase])]
      exact hroot5
    have heq6' : rmtree ["tmp"]
        (setNode (zipPathOf (archiveBase h))
          (.zipFile (archiveEntries ["tmp"] (stage4 h bin lic fs)))
          (stage4 h bin lic fs)) = Except.error e1 := heq6
    unfold rmtree at heq6'
    rw [htdir] at heq6'
    simp at heq6'
  rename_i fs6 heq6
  exact Outcome.noConfusion hf

theorem findNode_some_mem {fs : FS} {q : Path} {n : Node}
    (h : findNode fs q = some n) : (q, n) ∈ fs := by
  rw [findNode] at h
  obtain ⟨e, hfind, hsnd⟩ := Option.map_eq_some'.mp h
  have hmem := List.mem_of_find?_eq_some hfind
  have hfst : e.1 = q := by simpa using List.find?_some hfind
  have : e = (q, n) := by
    rw [Prod.ext_iff]
    exact ⟨hfst, hsnd⟩
  rwa [this] at hmem

/-- A full symbolic run on the P3 working directory, for any host whose
platform is not Windows and any runner whose build succeeds. -/
theorem run_fsP3 {h : Host} (hw : PLATFORM h ≠ "Windows") {r : String → Int}
    (hr : r "cargo build --release" = 0) :
    script h r fsP3 =
      .ok ((archiveZipPath h, .zipFile entsP3) :: (["publish"], Node.dir) :: fsP3) := by
  have hb : binaryName h = "skye" := if_neg hw
  unfold script pack
  rw [hb]
  simp only [hr]
  rfl

/-! ### The claims -/

/-- Claim C1: when the build command returns a non-zero status the run
terminates via `sys.exit(1)`, the `publish` directory exists and is
empty, and nothing outside the `publish` subtree was created or removed
(in particular no staging directory and no archive). -/
theorem C1_build_failure_short_circuit (h : Host) (r : String → Int) (fs : FS)
    (hp : publishOk fs = true) (hc : r "cargo build --release" ≠ 0) :
    script h r fs = .exit1 (resetFS fs) ∧
    findNode (resetFS fs) ["publish"] = some Node.dir ∧
    publishEmpty (resetFS fs) = true ∧
    (resetFS fs).all (fun e => underDir ["publish"] e.1 || decide (e ∈ fs)) = true ∧
    fs.all (fun e => underDir ["publish"] e.1 || decide (e ∈ resetFS fs)) = true := by
  refine ⟨?_, resetFS_findNode_publish fs, resetFS_publishEmpty hp, ?_, ?_⟩
  · rw [script_run h r hp]
    simp only [pack]
    rw [if_pos hc]
  · rw [List.all_eq_true]
    intro e he
    by_cases hu : underDir ["publish"] e.1 = true
    · simp [hu]
    · have hu' : underDir ["publish"] e.1 = false := by simpa using hu
      have hmem : e ∈ fs := by
        have := (@resetFS_mem_frame fs e.1 e.2 hu').mp (by simpa using he)
        simpa using this
      simp [hmem]
  · rw [List.all_eq_true]
    intro e he
    by_cases hu : underDir ["publish"] e.1 = true
    · simp [hu]
    · have hu' : underDir ["publish"] e.1 = false := by simpa using hu
      have hmem : e ∈ resetFS fs := by
        have := (@resetFS_mem_frame fs e.1 e.2 hu').mpr (by simpa using he)
        simpa using this
      simp [hmem]

/-- Witness for C1 at a concrete host, runner and working directory. -/
theorem C1_witness :
    script hLinux cmdFail fsP3 = .exit1 (resetFS fsP3) ∧
    findNode (resetFS fsP3) ["publish"] = some Node.dir ∧
    publishEmpty (resetFS fsP3) = true ∧
    (resetFS fsP3).all (fun e => underDir ["publish"] e.1 || decide (e ∈ fsP3)) = true ∧
    fsP3.all (fun e => underDir ["publish"] e.1 || decide (e ∈ resetFS fsP3)) = true :=
  C1_build_failure_short_circuit hLinux cmdFail fsP3 (by decide) (by decide)

/-- Claim C2: a successful run on a non-Windows host over the P3 working
directory (LICENSE, lib with a.txt and sub/b.txt, built binary `skye`)
produces an archive whose top-level entries are exactly the binary,
`LICENSE` and `lib/`, with the `lib` structure preserved and no `tmp/`
prefix on any archived path. -/
theorem C2_archive_contents (h : Host) (r : String → Int)
    (hw : PLATFORM h ≠ "Windows") (hr : r "cargo build --release" = 0) :
    ∃ fs', script h r fsP3 = .ok fs' ∧
      findNode fs' (archiveZipPath h) = some (.zipFile entsP3) ∧
      entsP3.all (fun en =>
        decide (en.1.headD "" = "skye") || decide (en.1.headD "" = "LICENSE") ||
          decide (en.1.headD "" = "lib")) = true ∧
      (["skye"], some "BIN") ∈ entsP3 ∧
      (["LICENSE"], some "MIT") ∈ entsP3 ∧
      (["lib"], (none : Option String)) ∈ entsP3 ∧
      (["lib", "a.txt"], some "a") ∈ entsP3 ∧
      (["lib", "sub", "b.txt"], some "b") ∈ entsP3 ∧
      entsP3.all (fun en => !decide (en.1.headD "" = "tmp")) = true := by
  refine ⟨_, run_fsP3 hw hr, ?_, by decide, by decide, by decide, by decide, by decide,
    by decide, by decide⟩
  rw [findNode_cons, if_pos rfl]

/-- Witness for C2 at a concrete non-Windows host and runner. -/
theorem C2_witness :
    ∃ fs', script hLinux cmdOk fsP3 = .ok fs' ∧
      findNode fs' (archiveZipPath hLinux) = some (.zipFile entsP3) ∧
      entsP3.all (fun en =>
        decide (en.1.headD "" = "skye") || decide (en.1.headD "" = "LICENSE") ||
          decide (en.1.headD "" = "lib")) = true ∧
      (["skye"], some "BIN") ∈ entsP3 ∧
      (["LICENSE"], some "MIT") ∈ entsP3 ∧
      (["lib"], (none : Option String)) ∈ entsP3 ∧
      (["lib", "a.txt"], some "a") ∈ entsP3 ∧
      (["lib", "sub", "b.txt"], some "b") ∈ entsP3 ∧
      entsP3.all (fun en => !decide (en.1.headD "" = "tmp")) = true :=
  C2_archive_contents hLinux cmdOk (by decide) rfl

/-- Claim C3: the archive is written at
`publish/Skye-<machine>-<platform>.zip`, where the platform string is
the raw OS name with only `Darwin` rewritten to `macOS`; in particular
Darwin/arm64 gives `Skye-arm64-macOS.zip` and Linux/x86_64 gives
`Skye-x86_64-Linux.zip`. -/
theorem C3_archive_naming :
    (∀ (h : Host) (r : String → Int) (fs fs' : FS),
        script h r fs = .ok fs' → isZipAt fs' (archiveZipPath h) = true) ∧
    (∀ h : Host, archiveZipPath h =
        ["publish", "Skye-" ++ ARCH h ++ "-" ++ PLATFORM h ++ ".zip"]) ∧
    (∀ h : Host, h.system = "Darwin" → PLATFORM h = "macOS") ∧
    (∀ h : Host, h.system ≠ "Darwin" → PLATFORM h = h.system) ∧
    archiveZipPath hDarwin = ["publish", "Skye-arm64-macOS.zip"] ∧
    archiveZipPath hLinux = ["publish", "Skye-x86_64-Linux.zip"] :=
  ⟨fun _ _ _ _ hok => run_ok_isZip hok, fun h => archiveZipPath_eq h,
    fun h hd => by rw [PLATFORM, if_pos hd],
    fun h hd => by rw [PLATFORM, if_neg hd], rfl, rfl⟩

/-- Witness for C3: the implications applied at concrete hosts and a
concrete successful run. -/
theorem C3_witness :
    isZipAt ((archiveZipPath hLinux, .zipFile entsP3) :: (["publish"], Node.dir) :: fsP3)
      (archiveZipPath hLinux) = true ∧
    PLATFORM hDarwin = "macOS" ∧ PLATFORM hLinux = "Linux" :=
  ⟨C3_archive_naming.1 hLinux cmdOk fsP3 _ (run_fsP3 (by decide) rfl),
    C3_archive_naming.2.2.1 hDarwin (by decide),
    C3_archive_naming.2.2.2.1 hLinux (by decide)⟩

/-- Claim C4: if a `tmp` entry already exists and the build succeeds,
`os.mkdir("tmp")` raises `FileExistsError`, the run dies with that
unhandled error, and the pre-existing `tmp` subtree is untouched. -/
theorem C4_stale_staging (h : Host) (r : String → Int) (fs : FS)
    (hp : publishOk fs = true) (hr : r "cargo build --release" = 0)
    (ht : pathExists fs ["tmp"] = true) :
    script h r fs = .fatal (.fileExists ["tmp"]) (resetFS fs) ∧
    (resetFS fs).all (fun e => !underDir ["tmp"] e.1 || decide (e ∈ fs)) = true ∧
    fs.all (fun e => !underDir ["tmp"] e.1 || decide (e ∈ resetFS fs)) = true := by
  have hframe : ∀ q : Path, underDir ["tmp"] q = true →
      underDir ["publish"] q = false :=
    fun q hq => underDir_head_ne (by decide) hq
  refine ⟨?_, ?_, ?_⟩
  · rw [script_run h r hp]
    simp only [pack]
    rw [if_neg (by simp [hr])]
    have htr : pathExists (resetFS fs) ["tmp"] = true := by
      rw [pathExists, resetFS_findNode_frame (by simp [underDir])]
      exact ht
    have hm : mkdir ["tmp"] (resetFS fs) = .error (.fileExists ["tmp"]) := by
      unfold mkdir
      rw [if_pos htr]
    rw [hm]
  · rw [List.all_eq_true]
    intro e he
    by_cases hu : underDir ["tmp"] e.1 = true
    · have hmem : e ∈ fs := by
        have := (@resetFS_mem_frame fs e.1 e.2 (hframe e.1 hu)).mp
          (by simpa using he)
        simpa using this
      simp [hmem]
    · have hu' : underDir ["tmp"] e.1 = false := by simpa using hu
      simp [hu']
  · rw [List.all_eq_true]
    intro e he
    by_cases hu : underDir ["tmp"] e.1 = true
    · have hmem : e ∈ resetFS fs := by
        have := (@resetFS_mem_frame fs e.1 e.2 (hframe e.1 hu)).mpr
          (by simpa using he)
        simpa using this
      simp [hmem]
    · have hu' : underDir ["tmp"] e.1 = false := by simpa using hu
      simp [hu']

/-- Witness for C4: a concrete run with a stale `tmp` directory. -/
theorem C4_witness :
    script hLinux cmdOk ((["tmp"], Node.dir) :: fsP3) =
      .fatal (.fileExists ["tmp"]) (resetFS ((["tmp"], Node.dir) :: fsP3)) ∧
    (resetFS ((["tmp"], Node.dir) :: fsP3)).all
      (fun e => !underDir ["tmp"] e.1 || decide (e ∈ (["tmp"], Node.dir) :: fsP3)) = true ∧
    ((["tmp"], Node.dir) :: fsP3).all
      (fun e => !underDir ["tmp"] e.1 ||
        decide (e ∈ resetFS ((["tmp"], Node.dir) :: fsP3))) = true :=
  C4_stale_staging hLinux cmdOk ((["tmp"], Node.dir) :: fsP3) (by decide) rfl (by decide)

/-- Claim C5: after a second consecutive successful run, `publish`
exists, holds the single archive named for the host, and nothing from
the first run is left below it. -/
theorem C5_rerun_idempotent (h : Host) (r1 r2 : String → Int) (fs fs1 fs2 : FS)
    (hp : publishOk fs = true) (h1 : script h r1 fs = .ok fs1)
    (h2 : script h r2 fs1 = .ok fs2) :
    findNode fs2 ["publish"] = some Node.dir ∧
    isZipAt fs2 (archiveZipPath h) = true ∧
    publishCleanExcept fs2 (archiveZipPath h) = true := by
  have hshape1 := run_ok_publishShape hp h1
  exact run_ok_publishShape (publishOk_of_dir hshape1.1) h2

/-- Witness for C5: two concrete consecutive runs. -/
theorem C5_witness :
    findNode ((archiveZipPath hLinux, Node.zipFile entsP3) ::
        (["publish"], Node.dir) :: fsP3) ["publish"] = some Node.dir ∧
    isZipAt ((archiveZipPath hLinux, Node.zipFile entsP3) ::
        (["publish"], Node.dir) :: fsP3) (archiveZipPath hLinux) = true ∧
    publishCleanExcept ((archiveZipPath hLinux, Node.zipFile entsP3) ::
        (["publish"], Node.dir) :: fsP3) (archiveZipPath hLinux) = true :=
  C5_rerun_idempotent hLinux cmdOk cmdOk fsP3
    ((archiveZipPath hLinux, Node.zipFile entsP3) :: (["publish"], Node.dir) :: fsP3)
    ((archiveZipPath hLinux, Node.zipFile entsP3) :: (["publish"], Node.dir) :: fsP3)
    (by decide) (run_fsP3 (by decide) rfl) (by rfl)

/-- Claim C6: after every successful run the staging directory is gone —
no binding at or below `tmp` remains. -/
theorem C6_staging_cleanup (h : Host) (r : String → Int) (fs fs' : FS)
    (hok : script h r fs = .ok fs') :
    noTmpLeft fs' = true ∧ pathExists fs' ["tmp"] = false := by
  have hnt := run_ok_noTmp hok
  refine ⟨hnt, ?_⟩
  cases hfn : findNode fs' ["tmp"] with
  | none => simp [pathExists, hfn]
  | some n =>
    have hmem := findNode_some_mem hfn
    have := noTmpLeft_iff.mp hnt ["tmp"] n hmem
    rw [underDir_refl] at this
    cases this

/-- Witness for C6 at a concrete successful run. -/
theorem C6_witness :
    noTmpLeft ((archiveZipPath hLinux, Node.zipFile entsP3) ::
      (["publish"], Node.dir) :: fsP3) = true ∧
    pathExists ((archiveZipPath hLinux, Node.zipFile entsP3) ::
      (["publish"], Node.dir) :: fsP3) ["tmp"] = false :=
  C6_staging_cleanup hLinux cmdOk fsP3 _ (run_fsP3 (by decide) rfl)

/-- Claim C7: the binary copied from `target/release/` is `skye.exe`
exactly when the platform string is `Windows` and `skye` otherwise, and
`shutil.copy` lands it in the staging directory under that same
filename. -/
theorem C7_binary_selection (h : Host) (fs : FS) (c : String)
    (hd : findNode fs ["tmp"] = some Node.dir)
    (hb : findNode fs ["target", "release", binaryName h] = some (.file c)) :
    copy ["target", "release", binaryName h] ["tmp"] fs =
      .ok (setNode ["tmp", binaryName h] (.file c) fs) ∧
    (PLATFORM h = "Windows" → binaryName h = "skye.exe") ∧
    (PLATFORM h ≠ "Windows" → binaryName h = "skye") := by
  refine ⟨?_, fun hw => by rw [binaryName, if_pos hw],
    fun hw => by rw [binaryName, if_neg hw]⟩
  unfold copy
  rw [hb, hd]
  rfl

/-- Witness for C7 at a concrete host and staging state. -/
theorem C7_witness :
    copy ["target", "release", binaryName hLinux] ["tmp"]
        ((["tmp"], Node.dir) :: fsP3) =
      .ok (setNode ["tmp", binaryName hLinux] (.file "BIN")
        ((["tmp"], Node.dir) :: fsP3)) ∧
    (PLATFORM hLinux = "Windows" → binaryName hLinux = "skye.exe") ∧
    (PLATFORM hLinux ≠ "Windows" → binaryName hLinux = "skye") :=
  C7_binary_selection hLinux ((["tmp"], Node.dir) :: fsP3) "BIN" rfl rfl

/-- Claim C8: after a successful build, a missing binary, `LICENSE` or
`lib` makes the run die with an unhandled (fatal) error, and
`sys.exit(1)` is reachable only through a failing build command. -/
theorem C8_fs_errors_unhandled :
    (∀ (h : Host) (r : String → Int) (fs : FS),
        publishOk fs = true → r "cargo build --release" = 0 →
        pathExists fs ["tmp"] = false →
        (findNode fs ["target", "release", binaryName h] = none ∨
         findNode fs ["LICENSE"] = none ∨ findNode fs ["lib"] = none) →
        ∃ e fsx, script h r fs = .fatal e fsx) ∧
    (∀ (h : Host) (r : String → Int) (fs fsx : FS),
        script h r fs = .exit1 fsx → r "cargo build --release" ≠ 0) := by
  constructor
  · intro h r fs hp hr htmp hmiss
    cases ho : pack h r "cargo build --release" (resetFS fs) with
    | ok fso =>
      exfalso
      obtain ⟨-, -, bin, lic, -, -, hbin, hlic, hlib, -⟩ := pack_ok_inv ho
      rcases hmiss with hm | hm | hm
      · rw [resetFS_findNode_frame (by simp [underDir]), hm] at hbin
        cases hbin
      · rw [resetFS_findNode_frame (by simp [underDir]), hm] at hlic
        cases hlic
      · rw [resetFS_findNode_frame (by simp [underDir]), hm] at hlib
        cases hlib
    | exit1 fso =>
      exact absurd hr (pack_exit1_inv ho).1
    | fatal e fso =>
      exact ⟨e, fso, by rw [script_run h r hp]; exact ho⟩
  · intro h r fs fsx hex
    unfold script at hex
    split at hex
    · exact Outcome.noConfusion hex
    rename_i fs1 heq1
    split at hex
    · exact Outcome.noConfusion hex
    rename_i fs2 heq2
    exact (pack_exit1_inv hex).1

/-- Witness for C8: a concrete run with the LICENSE file missing, and a
concrete exit-1 run forcing a non-zero build status. -/
theorem C8_witness :
    (∃ e fsx, script hLinux cmdOk fsNoLicense = .fatal e fsx) ∧
    cmdFail "cargo build --release" ≠ 0 :=
  ⟨C8_fs_errors_unhandled.1 hLinux cmdOk fsNoLicense (by decide) rfl (by decide)
      (Or.inr (Or.inl (by decide))),
    C8_fs_errors_unhandled.2 hLinux cmdFail fsP3 (resetFS fsP3) (by rfl)⟩

/-- Claim C9: the `publish` reset happens before the build command runs
and before any input is examined, so every failing run (build failure or
unhandled filesystem error) ends with `publish` present and empty — all
archives of previous runs already destroyed. -/
theorem C9_reset_first :
    (∀ (h : Host) (r : String → Int) (fs : FS), publishOk fs = true →
        script h r fs = pack h r "cargo build --release" (resetFS fs)) ∧
    (∀ (h : Host) (r : String → Int) (fs fsx : FS) (e : PyError),
        publishOk fs = true →
        (script h r fs = .exit1 fsx ∨ script h r fs = .fatal e fsx) →
        findNode fsx ["publish"] = some Node.dir ∧ publishEmpty fsx = true) := by
  refine ⟨fun h r fs hp => script_run h r hp, fun h r fs fsx e hp hf => ?_⟩
  rw [script_run h r hp] at hf
  rcases hf with hf | hf
  · obtain ⟨-, rfl⟩ := pack_exit1_inv hf
    exact ⟨resetFS_findNode_publish fs, resetFS_publishEmpty hp⟩
  · exact pack_fatal_state (resetFS_publishEmpty hp) (resetFS_findNode_publish fs) hf

/-- Witness for C9: the reset equation and the failing-run conclusion at
concrete inputs (a run whose build exits with status 2, started with a
stale archive in `publish`). -/
theorem C9_witness :
    script hLinux cmdOk fsP3 = pack hLinux cmdOk "cargo build --release" (resetFS fsP3) ∧
    (findNode (resetFS ((["publish"], Node.dir) ::
        (["publish", "old.zip"], Node.file "z") :: fsP3)) ["publish"] = some Node.dir ∧
      publishEmpty (resetFS ((["publish"], Node.dir) ::
        (["publish", "old.zip"], Node.file "z") :: fsP3)) = true) :=
  ⟨C9_reset_first.1 hLinux cmdOk fsP3 (by decide),
    C9_reset_first.2 hLinux cmdFail
      ((["publish"], Node.dir) :: (["publish", "old.zip"], Node.file "z") :: fsP3)
      (resetFS ((["publish"], Node.dir) :: (["publish", "old.zip"], Node.file "z") :: fsP3))
      (PyError.fileExists ["tmp"]) (by decide) (Or.inl (by rfl))⟩

/-- Claim C10: selecting the binary name by testing the normalized
platform against `"Windows"` is equal, for every raw host OS name, to
selecting it by testing the raw OS name against `"Windows"`. -/
theorem C10_raw_os_equivalent : ∀ h : Host, binaryName h = binaryNameFromRawOS h := by
  intro h
  unfold binaryName binaryNameFromRawOS PLATFORM
  by_cases hd : h.system = "Darwin"
  · rw [if_pos hd, hd]
    decide
  · rw [if_neg hd]

end Publish
